import Mathlib

/-!
Shallow embedding of `marconi/storage/mongodb/controllers.py` (queue, message
and claim controllers over two MongoDB collections), together with proofs
about the claim subsystem, message enumeration and error handling.

Modelling conventions:
* Timestamps are integers (seconds).  Every operation that reads the wall
  clock in the source (`timeutils.utcnow()`) receives the corresponding
  instant as an explicit parameter; `ClaimController.create` reads the clock
  twice (before candidate selection and before the conditional update), so it
  takes two instants.
* MongoDB `ObjectId`s encode their creation time; they are modelled as a
  (time, sequence) pair ordered lexicographically, which is how `ObjectId`s
  sort.  `ObjectId` generation happens client side in pymongo, so operations
  that mint ids take the fresh sequence number as a parameter.
* String arguments that the code passes through `utils.to_oid` are modelled
  by `RawId`: either falsy (`None` / `""`), a non-empty string that is not a
  well-formed `ObjectId` (`to_oid` raises `ValueError`), or a valid id.
* A BSON equality match only succeeds inside one type: a string never equals
  an `ObjectId`.  The `q` field of a message document is therefore modelled
  as a `BVal` (ObjectId-or-string), so that the update in
  `ClaimController.create` that filters on `{"q": queue}` (the queue *name*)
  is represented faithfully.
* Collections are lists in insertion order; `find` is `List.filter` (natural
  order, no sorting unless the query sorts), `find_one` is `List.find?`.
  A pymongo cursor `limit(n)` with `n = 0` imposes no limit at all, which
  `cursorLimit` mirrors.
* Opaque documents (queue metadata, message bodies) are modelled as strings.
-/

/-- A MongoDB ObjectId: creation time plus a disambiguating sequence. -/
structure OID where
  time : Int
  seq : Nat
deriving DecidableEq, Repr

/-- ObjectIds compare lexicographically on (time, seq): strict order. -/
def oidLt (a b : OID) : Bool :=
  decide (a.time < b.time) || (decide (a.time = b.time) && decide (a.seq < b.seq))

/-- ObjectIds compare lexicographically on (time, seq): non-strict order. -/
def oidLe (a b : OID) : Bool :=
  decide (a.time < b.time) || (decide (a.time = b.time) && decide (a.seq ≤ b.seq))

/-- String rendering of an ObjectId (`str(oid)` in Python). -/
def OID.str (o : OID) : String :=
  toString o.time ++ ":" ++ toString o.seq

/-- A BSON value as far as the embedded queries need: an ObjectId or a
string.  Equality between the two variants never holds, as in BSON. -/
inductive BVal where
  | oid (o : OID)
  | strv (s : String)
deriving DecidableEq, Repr

/-- A raw string argument that the code feeds to `utils.to_oid`:
`empty` is falsy (`None` or `""`), `malformed` raises `ValueError` when
parsed, `valid o` parses to the ObjectId `o`. -/
inductive RawId where
  | empty
  | malformed
  | valid (o : OID)
deriving DecidableEq, Repr

/-- Truthiness of a raw id (`if marker:` / `if claim:` in Python). -/
def RawId.truthy : RawId → Bool
  | RawId.empty => false
  | _ => true

/-- Exceptions surfaced by the controllers. -/
inductive Exc where
  | queueDoesNotExist
  | messageDoesNotExist
  | claimDoesNotExist
  | claimNotPermitted
  | valueError
deriving DecidableEq, Repr

/-- Outcome of `utils.to_oid` on a raw id: `ValueError` unless valid. -/
def toOid : RawId → Except Exc OID
  | RawId.valid o => Except.ok o
  | _ => Except.error Exc.valueError

deriving instance DecidableEq for Except

/-- Truthiness of an optional string (`if client_uuid:` in Python). -/
def truthyStr : Option String → Bool
  | none => false
  | some s => decide (s ≠ "")

/-- The embedded claim record `c` of a message document.  A fresh message
carries the placeholder `{id: None, e: created_at}` (no `t` key). -/
structure EmbClaim where
  id : Option OID
  e : Int
  t : Option Int
deriving DecidableEq, Repr

/-- A document of the `messages` collection:
`{_id, q, t: ttl, e: expires, u: client_uuid, c: claim, b: body}`. -/
structure Msg where
  mid : OID
  q : BVal
  t : Int
  e : Int
  u : Option String
  c : EmbClaim
  b : String
deriving DecidableEq, Repr

/-- A document of the `queues` collection: `{_id, p: project, n: name, m}`. -/
structure QueueDoc where
  qid : OID
  p : Option String
  n : String
  m : String
deriving DecidableEq, Repr

/-- The two collections, in insertion (natural) order. -/
structure Store where
  queues : List QueueDoc
  messages : List Msg
deriving DecidableEq, Repr

/-- A pymongo cursor limit: `limit(0)` is equivalent to no limit at all. -/
def cursorLimit (n : Nat) (l : List α) : List α :=
  if n = 0 then l else l.take n

/-- Insert an element into a list that is already ordered by `le`. -/
def insSorted (le : α → α → Bool) (a : α) : List α → List α
  | [] => [a]
  | b :: l => if le a b then a :: b :: l else b :: insSorted le a l

/-- Insertion sort by a boolean order, modelling a MongoDB `sort`. -/
def sortByB (le : α → α → Bool) : List α → List α
  | [] => []
  | a :: l => insSorted le a (sortByB le l)

/-- Adjacent-pairs ordering check: `true` iff the list is sorted by `le`. -/
def chainB (le : α → α → Bool) : List α → Bool
  | [] => true
  | [_] => true
  | a :: b :: l => le a b && chainB le (b :: l)

/-- Apply `f` to the first element satisfying `p`, as a MongoDB update with
`multi=False` does. -/
def updateFirst (p : α → Bool) (f : α → α) : List α → List α
  | [] => []
  | a :: l => if p a then f a :: l else a :: updateFirst p f l

/-- Message order by `_id`. -/
def msgLe (a b : Msg) : Bool := oidLe a.mid b.mid

/-- Cursor sort on `("_id", 1)`. -/
def sortMsgs : List Msg → List Msg := sortByB msgLe

/-- Queue summary yielded by `QueueController.list` (`metadata` present only
when `detailed`). -/
structure QueueSummary where
  name : String
  metadata : Option String
deriving DecidableEq, Repr

/-- Second value yielded by a paginated listing: the `marker_name["next"]` /
`marker_id["next"]` dictionary lookup, which raises `KeyError` when the slot
was never assigned (no item was yielded). -/
inductive MarkerOut where
  | next (s : String)
  | keyError
deriving DecidableEq, Repr

/-- Match of the `QueueController.list` query: `{"p": project}` plus
`{"n": {"$gt": marker}}` when the marker is truthy. -/
def queueListMatch (project : Option String) (marker : Option String)
    (q : QueueDoc) : Bool :=
  decide (q.p = project) &&
    (match marker with
     | none => true
     | some mk => if mk = "" then true else decide (mk < q.n))

/-- Queue name order used by the `sort("n")` cursor option. -/
def queueLe (a b : QueueDoc) : Bool := !(decide (b.n < a.n))

/-- QueueController.list: filter by project (and marker), sort ascending by
name, cut at `limit`; the second yield reads `marker_name["next"]`, set only
while items are yielded. -/
def QueueController.list (s : Store) (project : Option String)
    (marker : Option String) (limit : Nat) (detailed : Bool) :
    List QueueSummary × MarkerOut :=
  let cursor := cursorLimit limit
    (sortByB queueLe (s.queues.filter (queueListMatch project marker)))
  let items := cursor.map fun q =>
    { name := q.n, metadata := if detailed then some q.m else none }
  (items,
   match cursor.getLast? with
   | some q => MarkerOut.next q.n
   | none => MarkerOut.keyError)

/-- Match of the `{"p": project, "n": name}` queue lookup query. -/
def queueKeyMatch (project : Option String) (name : String) (q : QueueDoc) :
    Bool :=
  decide (q.p = project) && decide (q.n = name)

/-- QueueController._get / get_id: `find_one({"p": project, "n": name})`,
raising QueueDoesNotExist when absent, projected to the queue id. -/
def QueueController.get_id (s : Store) (name : String)
    (project : Option String) : Except Exc OID :=
  match s.queues.find? (queueKeyMatch project name) with
  | none => Except.error Exc.queueDoesNotExist
  | some q => Except.ok q.qid

/-- QueueController.upsert: an update with `upsert=True` on
`{"p": project, "n": name}` setting `m`; returns `not updatedExisting`.
The store mints `_id` for a fresh document; the minted id is a parameter. -/
def QueueController.upsert (s : Store) (name : String) (metadata : String)
    (project : Option String) (newId : OID) : Bool × Store :=
  match s.queues.find? (queueKeyMatch project name) with
  | some _ =>
      (false,
       { s with queues := (updateFirst (queueKeyMatch project name)
          (fun q => { q with m := metadata }) s.queues) })
  | none =>
      (true, { s with queues := s.queues ++ [⟨newId, project, name, metadata⟩] })

/-- Match of the `MessageController.active` query:
`q = qid ∧ e > now ∧ c.e ≤ now`, plus `u ≠ client_uuid` when echo is off and
a client uuid was supplied, plus `_id > marker` when a marker was parsed. -/
def activeMatch (now : Int) (qid : OID) (marker : Option OID) (echo : Bool)
    (cu : Option String) (m : Msg) : Bool :=
  decide (m.q = BVal.oid qid) && decide (now < m.e) && decide (m.c.e ≤ now) &&
    (if !echo && truthyStr cu then decide (m.u ≠ cu) else true) &&
    (match marker with
     | none => true
     | some mk => oidLt mk m.mid)

/-- MessageController.active: builds the query above and returns the raw
cursor, in collection order (the method itself applies no sort).  A truthy
marker goes through `utils.to_oid`, whose `ValueError` propagates. -/
def MessageController.active (s : Store) (now : Int) (qid : OID)
    (marker : RawId) (echo : Bool) (cu : Option String) :
    Except Exc (List Msg) :=
  if marker.truthy then
    match toOid marker with
    | Except.error e => Except.error e
    | Except.ok mk =>
        Except.ok (s.messages.filter (activeMatch now qid (some mk) echo cu))
  else
    Except.ok (s.messages.filter (activeMatch now qid none echo cu))

/-- Match of the `MessageController.claimed` query: `c.e > expires ∧ q = qid`
plus `c.id = claim_id` when one is supplied and `c.id ≠ null` otherwise. -/
def claimedMatch (expires : Int) (qid : OID) (cid : Option OID) (m : Msg) :
    Bool :=
  (match cid with
   | some c => decide (m.c.id = some c)
   | none => decide (m.c.id ≠ none)) &&
    decide (expires < m.c.e) && decide (m.q = BVal.oid qid)

/-- Element shape produced by the `claimed` denormalizer:
`{id, age, ttl, body, claim}`. -/
structure ClaimMsgView where
  id : String
  age : Int
  ttl : Int
  body : String
  claim : EmbClaim
deriving DecidableEq, Repr

/-- Element shape produced by the `list` / `get` denormalizers:
`{id, age, ttl, body}`. -/
structure MsgView where
  id : String
  age : Int
  ttl : Int
  body : String
deriving DecidableEq, Repr

/-- The `claimed` denormalizer (`age` is the whole-second difference between
`now` and the creation time encoded in the id). -/
def claimDenorm (now : Int) (m : Msg) : ClaimMsgView :=
  { id := m.mid.str, age := now - m.mid.time, ttl := m.t, body := m.b,
    claim := m.c }

/-- The `list` / `get` denormalizer. -/
def msgDenorm (now : Int) (m : Msg) : MsgView :=
  { id := m.mid.str, age := now - m.mid.time, ttl := m.t, body := m.b }

/-- MessageController.claimed: query as above, sorted ascending by `_id`,
optionally limited (`if limit:` — a falsy limit of 0 is not applied, and a
cursor limit of 0 would impose no bound anyway), then denormalized. -/
def MessageController.claimed (s : Store) (now : Int) (qid : OID)
    (cid : Option OID) (expires : Option Int) (limit : Option Nat) :
    List ClaimMsgView :=
  let exp := expires.getD now
  let msgs := sortMsgs (s.messages.filter (claimedMatch exp qid cid))
  let msgs := match limit with
    | some n => if n = 0 then msgs else cursorLimit n msgs
    | none => msgs
  msgs.map (claimDenorm now)

/-- Modelled from the spec: the exception class hierarchy of
`marconi.storage.exceptions` is not part of the provided source.  The spec
states that a message listing on a queue that does not exist "completes with
an empty result rather than failing"; since the only handler in
`MessageController.list` is `except ValueError`, the `QueueDoesNotExist`
raised by the queue lookup is modelled as matching that handler, alongside
the `ValueError` raised by `utils.to_oid` on a malformed marker. -/
def catchesValueError : Exc → Bool
  | Exc.valueError => true
  | Exc.queueDoesNotExist => true
  | _ => false

/-- Observable behaviour of the `MessageController.list` generator:
it either returns before its first yield (`empty`), yields a cursor and then
the marker slot (`items`), or propagates an uncaught exception. -/
inductive ListResult where
  | empty
  | items (cursor : List MsgView) (marker : MarkerOut)
  | raised (e : Exc)
deriving DecidableEq, Repr

/-- The cursor drained by `MessageController.list`: the active messages with
the `sort("_id")` and `limit(limit)` cursor options applied (the server sorts
before limiting). -/
def listSortedMsgs (msgs : List Msg) (limit : Nat) : List Msg :=
  cursorLimit limit (sortMsgs msgs)

/-- MessageController.list: resolves the queue id and queries `active`
(a `ValueError` from either step makes the generator return empty), then
yields the denormalized cursor and the `marker_id["next"]` slot. -/
def MessageController.list (s : Store) (now : Int) (queue : String)
    (project : Option String) (marker : RawId) (limit : Nat) (echo : Bool)
    (cu : Option String) : ListResult :=
  match (QueueController.get_id s queue project).bind
      (fun qid => MessageController.active s now qid marker echo cu) with
  | Except.error e =>
      if catchesValueError e then ListResult.empty else ListResult.raised e
  | Except.ok msgs =>
      let drained := listSortedMsgs msgs limit
      ListResult.items (drained.map (msgDenorm now))
        (match drained.getLast? with
         | some m => MarkerOut.next m.mid.str
         | none => MarkerOut.keyError)

/-- Match of the `MessageController.get` query:
`q = qid ∧ e > now ∧ _id = mid`. -/
def getMatch (now : Int) (qid : OID) (mid : OID) (m : Msg) : Bool :=
  decide (m.q = BVal.oid qid) && decide (now < m.e) && decide (m.mid = mid)

/-- MessageController.get: a malformed id fails MessageDoesNotExist; the
queue lookup happens while building the query, so QueueDoesNotExist
propagates; a missing or expired document fails MessageDoesNotExist. -/
def MessageController.get (s : Store) (now : Int) (queue : String)
    (message_id : RawId) (project : Option String) : Except Exc MsgView :=
  match toOid message_id with
  | Except.error _ => Except.error Exc.messageDoesNotExist
  | Except.ok mid =>
    match QueueController.get_id s queue project with
    | Except.error e => Except.error e
    | Except.ok qid =>
      match s.messages.find? (getMatch now qid mid) with
      | none => Except.error Exc.messageDoesNotExist
      | some m => Except.ok (msgDenorm now m)

/-- MessageController.delete.  A malformed message id returns silently; a
missing queue raises QueueDoesNotExist, swallowed by the outer handler.
With a truthy `claim`, the document is fetched with `e > now` added to the
query: when absent the call returns silently; otherwise a malformed claim
id, or an embedded claim that is not live or does not match, raises
ClaimNotPermitted, and on success the document is removed by `_id`.  With a
falsy `claim` the removal is unconditional on `{q, _id}`. -/
def MessageController.delete (s : Store) (now : Int) (queue : String)
    (message_id : RawId) (project : Option String) (claim : RawId) :
    Except Exc Store :=
  match toOid message_id with
  | Except.error _ => Except.ok s
  | Except.ok mid =>
    match QueueController.get_id s queue project with
    | Except.error _ => Except.ok s
    | Except.ok qid =>
      if claim.truthy then
        match s.messages.find? (getMatch now qid mid) with
        | none => Except.ok s
        | some msg =>
          match toOid claim with
          | Except.error _ => Except.error Exc.claimNotPermitted
          | Except.ok cid =>
            if decide (msg.c.id = some cid) && decide (now < msg.c.e) then
              Except.ok { s with messages :=
                (s.messages.filter (fun m => decide (m.mid ≠ mid))) }
            else
              Except.error Exc.claimNotPermitted
      else
        Except.ok { s with messages :=
          (s.messages.filter (fun m => !(decide (m.q = BVal.oid qid) && decide (m.mid = mid)))) }

/-- Claim view built by `ClaimController.get` from the first covered
message: `{age, ttl: popped c.t, id: str(c.id)}`. -/
structure ClaimView where
  age : Int
  ttl : Option Int
  id : String
deriving DecidableEq, Repr

/-- Python `str` of an optional ObjectId (`str(None)` is `"None"`). -/
def oidOptStr : Option OID → String
  | some o => o.str
  | none => "None"

/-- Drop the embedded claim from a claimed-message view (the `pop` /
`del msg["claim"]` steps of `ClaimController.get`). -/
def stripClaim (v : ClaimMsgView) : MsgView :=
  { id := v.id, age := v.age, ttl := v.ttl, body := v.body }

/-- ClaimController.get: resolves the queue, parses the claim id
(`ValueError` becomes ClaimDoesNotExist), enumerates
`claimed(qid, cid, now)`; an empty enumeration raises ClaimDoesNotExist;
otherwise the claim view comes from the first message's embedded claim and
the cursor yields every covered message with the claim stripped. -/
def ClaimController.get (s : Store) (now : Int) (queue : String)
    (claim_id : RawId) (project : Option String) :
    Except Exc (ClaimView × List MsgView) :=
  match QueueController.get_id s queue project with
  | Except.error e => Except.error e
  | Except.ok qid =>
    match toOid claim_id with
    | Except.error _ => Except.error Exc.claimDoesNotExist
    | Except.ok cid =>
      match MessageController.claimed s now qid (some cid) (some now) none with
      | [] => Except.error Exc.claimDoesNotExist
      | first :: rest =>
        Except.ok
          ({ age := now - cid.time, ttl := first.claim.t,
             id := oidOptStr first.claim.id },
           (first :: rest).map stripClaim)

/-- Match of the conditional update in `ClaimController.create`:
`_id ∈ ids ∧ (c.id = null ∨ (c.id ≠ null ∧ c.e ≤ now))`, evaluated at the
recaptured instant. -/
def claimPred (ids : List OID) (nowU : Int) (m : Msg) : Bool :=
  decide (m.mid ∈ ids) &&
    (decide (m.c.id = none) || (decide (m.c.id ≠ none) && decide (m.c.e ≤ nowU)))

/-- Effect of the conditional update in `ClaimController.create`:
`$set {c: meta}` on matching documents. -/
def claimApply (ids : List OID) (nowU : Int) (meta : EmbClaim) (m : Msg) :
    Msg :=
  if claimPred ids nowU m then { m with c := meta } else m

/-- Match of the second update in `ClaimController.create`:
`q = queue ∧ e < expires ∧ c.id = oid`.  The filter value for `q` is the
queue *name* string taken from the method argument, not the resolved queue
id, exactly as in the source. -/
def extendPred (queue : String) (expires : Int) (oid : OID) (m : Msg) :
    Bool :=
  decide (m.q = BVal.strv queue) && decide (m.e < expires) &&
    decide (m.c.id = some oid)

/-- Effect of the second update in `ClaimController.create`:
`$set {e: expires, t: ttl}` on matching documents. -/
def extendApply (queue : String) (expires ttl : Int) (oid : OID) (m : Msg) :
    Msg :=
  if extendPred queue expires oid m then { m with e := expires, t := ttl }
  else m

/-- ClaimController.create: verify the queue, mint a claim id, compute
`expires = now + ttl`, select up to `limit` active candidates sorted by id
(`limit(limit).sort("_id")`; a limit of 0 is no limit), return early with an
empty cursor when there are none, otherwise run the conditional claim update
and the expiration-extension update, and read the claim back through
`ClaimController.get` when at least one document was updated. -/
def ClaimController.create (s : Store) (nowA nowU : Int) (queue : String)
    (ttlMeta : Option Int) (project : Option String) (limit : Nat)
    (oidSeq : Nat) : Except Exc (String × List MsgView × Store) :=
  match QueueController.get_id s queue project with
  | Except.error e => Except.error e
  | Except.ok qid =>
    let ttl := ttlMeta.getD 60
    let oid : OID := ⟨nowA, oidSeq⟩
    let expires := nowA + ttl
    let meta : EmbClaim := { id := some oid, e := expires, t := some ttl }
    match MessageController.active s nowA qid RawId.empty false none with
    | Except.error e => Except.error e
    | Except.ok actv =>
      let candidates := cursorLimit limit (sortMsgs actv)
      if candidates.length = 0 then
        Except.ok (oid.str, [], s)
      else
        let ids := candidates.map Msg.mid
        let updated := (s.messages.filter (claimPred ids nowU)).length
        let s1 := { s with messages := s.messages.map (claimApply ids nowU meta) }
        let s2 := { s1 with messages := s1.messages.map (extendApply queue expires ttl oid) }
        if updated ≠ 0 then
          match ClaimController.get s2 nowU queue (RawId.valid oid) project with
          | Except.error e => Except.error e
          | Except.ok (_, views) => Except.ok (oid.str, views, s2)
        else
          Except.ok (oid.str, [], s2)

/-- Effect of the claim rewrite in `ClaimController.update`:
`$set {c: meta}` on documents matching `q = qid ∧ c.id = cid`. -/
def claimUpdApply (qid : OID) (cid : OID) (meta : EmbClaim) (m : Msg) : Msg :=
  if decide (m.q = BVal.oid qid) && decide (m.c.id = some cid) then
    { m with c := meta }
  else m

/-- Effect of the expiration-extension update in `ClaimController.update`:
`$set {e: expires, t: ttl}` on documents matching
`q = qid ∧ e < expires ∧ c.id = cid` (this one does use the queue id). -/
def claimUpdExtend (qid : OID) (expires ttl : Int) (cid : OID) (m : Msg) :
    Msg :=
  if decide (m.q = BVal.oid qid) && decide (m.e < expires) &&
      decide (m.c.id = some cid) then
    { m with e := expires, t := ttl }
  else m

/-- ClaimController.update: parse the claim id (`ValueError` becomes
ClaimDoesNotExist), compute `expires = now + ttl`, raise `ValueError` when
`now > expires`, resolve the queue, require at least one live message under
the claim (`claimed(qid, cid, expires=now, limit=1)`), then rewrite the
embedded claim everywhere and extend message expirations below `expires`. -/
def ClaimController.update (s : Store) (now : Int) (queue : String)
    (claim_id : RawId) (ttlMeta : Option Int) (project : Option String) :
    Except Exc Store :=
  match toOid claim_id with
  | Except.error _ => Except.error Exc.claimDoesNotExist
  | Except.ok cid =>
    let ttl := ttlMeta.getD 60
    let expires := now + ttl
    if decide (now > expires) then Except.error Exc.valueError
    else
      match QueueController.get_id s queue project with
      | Except.error e => Except.error e
      | Except.ok qid =>
        match MessageController.claimed s now qid (some cid) (some now) (some 1) with
        | [] => Except.error Exc.claimDoesNotExist
        | _ :: _ =>
          let meta : EmbClaim := { id := some cid, e := expires, t := some ttl }
          let s1 := { s with messages := s.messages.map (claimUpdApply qid cid meta) }
          Except.ok { s1 with messages := s1.messages.map (claimUpdExtend qid expires ttl cid) }

theorem msgLe_total (a b : Msg) : msgLe a b = true ∨ msgLe b a = true := by
  unfold msgLe oidLe
  rcases lt_trichotomy a.mid.time b.mid.time with h | h | h
  · left; simp [h]
  · rcases Nat.le_total a.mid.seq b.mid.seq with hs | hs
    · left; simp [h, hs]
    · right; simp [h.symm, hs]
  · right; simp [h]

theorem chainB_cons_of (le : α → α → Bool) (b : α) (l : List α)
    (hl : chainB le l = true)
    (hb : ∀ c, l.head? = some c → le b c = true) :
    chainB le (b :: l) = true := by
  cases l with
  | nil => rfl
  | cons c t =>
    have := hb c rfl
    simp [chainB, this, hl]

theorem chainB_tail (le : α → α → Bool) (b : α) (l : List α)
    (h : chainB le (b :: l) = true) : chainB le l = true := by
  cases l with
  | nil => rfl
  | cons c t =>
    have := h
    simp [chainB] at this
    exact this.2

theorem chainB_head (le : α → α → Bool) (b c : α) (t : List α)
    (h : chainB le (b :: c :: t) = true) : le b c = true := by
  simp [chainB] at h
  exact h.1

theorem insSorted_head? (le : α → α → Bool) (a : α) (l : List α) :
    (insSorted le a l).head? = some a ∨ (insSorted le a l).head? = l.head? := by
  cases l with
  | nil => left; rfl
  | cons b t =>
    by_cases h : le a b = true
    · left; simp [insSorted, h]
    · right; simp [insSorted, h]

theorem chainB_insSorted (le : α → α → Bool)
    (tot : ∀ a b, le a b = true ∨ le b a = true) (a : α) :
    ∀ l, chainB le l = true → chainB le (insSorted le a l) = true := by
  intro l
  induction l with
  | nil => intro _; rfl
  | cons b t ih =>
    intro h
    by_cases hab : le a b = true
    · simp [insSorted, hab, chainB, h]
    · have hba : le b a = true := (tot a b).resolve_left hab
      have ht : chainB le (insSorted le a t) = true :=
        ih (chainB_tail le b t h)
      simp only [insSorted, hab, if_false]
      refine chainB_cons_of le b _ ht ?_
      intro c hc
      rcases insSorted_head? le a t with hh | hh
      · rw [hh] at hc
        cases hc
        exact hba
      · rw [hh] at hc
        cases t with
        | nil => cases hc
        | cons d t2 =>
          have hdc : d = c := by simpa using hc
          subst hdc
          exact chainB_head le b d t2 h

theorem chainB_sortByB (le : α → α → Bool)
    (tot : ∀ a b, le a b = true ∨ le b a = true) :
    ∀ l, chainB le (sortByB le l) = true := by
  intro l
  induction l with
  | nil => rfl
  | cons a t ih => exact chainB_insSorted le tot a _ ih

theorem head?_take_eq (l : List α) (n : Nat) (c : α)
    (h : (l.take n).head? = some c) : l.head? = some c := by
  cases l with
  | nil => simp at h
  | cons a t =>
    cases n with
    | zero => simp at h
    | succ m => simpa using h

theorem chainB_take (le : α → α → Bool) :
    ∀ (l : List α), chainB le l = true → ∀ n, chainB le (l.take n) = true := by
  intro l
  induction l with
  | nil => intro _ n; simp [chainB]
  | cons a t ih =>
    intro h n
    cases n with
    | zero => rfl
    | succ m =>
      rw [List.take_succ_cons]
      refine chainB_cons_of le a _ (ih (chainB_tail le a t h) m) ?_
      intro c hc
      have := head?_take_eq t m c hc
      cases t with
      | nil => simp at this
      | cons d t2 =>
        have hdc : d = c := by simpa using this
        subst hdc
        exact chainB_head le a d t2 h

theorem chainB_cursorLimit (le : α → α → Bool) (l : List α) (n : Nat)
    (h : chainB le l = true) : chainB le (cursorLimit n l) = true := by
  unfold cursorLimit
  by_cases hn : n = 0
  · simpa [hn] using h
  · simpa [hn] using chainB_take le l h n

theorem chainB_listSortedMsgs (msgs : List Msg) (limit : Nat) :
    chainB msgLe (listSortedMsgs msgs limit) = true :=
  chainB_cursorLimit msgLe _ limit (chainB_sortByB msgLe msgLe_total msgs)

theorem updateFirst_twice (p : α → Bool) (f : α → α)
    (hp : ∀ a, p (f a) = p a) (hf : ∀ a, p a = true → f (f a) = f a) :
    ∀ l, updateFirst p f (updateFirst p f l) = updateFirst p f l := by
  intro l
  induction l with
  | nil => rfl
  | cons a t ih =>
    by_cases hpa : p a = true
    · simp [updateFirst, hpa, hp a, hf a hpa]
    · have hpa2 : p a = false := by simpa using hpa
      simp [updateFirst, hpa2, ih]

theorem find?_updateFirst (p : α → Bool) (f : α → α)
    (hp : ∀ a, p (f a) = p a) :
    ∀ (l : List α) (x : α), l.find? p = some x →
      (updateFirst p f l).find? p = some (f x) := by
  intro l
  induction l with
  | nil => intro x h; simp at h
  | cons a t ih =>
    intro x h
    by_cases hpa : p a = true
    · rw [List.find?_cons_of_pos _ hpa] at h
      cases h
      have : p (f a) = true := by rw [hp a]; exact hpa
      simp [updateFirst, hpa, List.find?_cons_of_pos _ this]
    · have hpa2 : p a = false := by simpa using hpa
      rw [List.find?_cons_of_neg _ hpa] at h
      simp only [updateFirst, hpa2, if_false, Bool.false_eq_true]
      rw [List.find?_cons_of_neg _ hpa]
      exact ih x h

theorem updateFirst_append_of_none (p : α → Bool) (f : α → α) :
    ∀ (l : List α) (d : α), l.find? p = none →
      updateFirst p f (l ++ [d]) = l ++ [if p d = true then f d else d] := by
  intro l
  induction l with
  | nil =>
    intro d _
    by_cases hd : p d = true
    · simp [updateFirst, hd]
    · have hd2 : p d = false := by simpa using hd
      simp [updateFirst, hd2]
  | cons a t ih =>
    intro d h
    rw [List.find?_cons] at h
    cases hpa : p a with
    | true => rw [hpa] at h; cases h
    | false =>
      rw [hpa] at h
      simp only [List.cons_append, updateFirst, hpa, Bool.false_eq_true,
        if_false]
      exact congrArg (List.cons a) (ih d h)

theorem find?_append_of_none (p : α → Bool) :
    ∀ (l : List α) (d : α), l.find? p = none → p d = true →
      (l ++ [d]).find? p = some d := by
  intro l
  induction l with
  | nil => intro d _ hd; simp [List.find?_cons_of_pos _ hd]
  | cons a t ih =>
    intro d h hd
    rw [List.find?_cons] at h
    cases hpa : p a with
    | true => rw [hpa] at h; cases h
    | false =>
      rw [hpa] at h
      rw [List.cons_append, List.find?_cons_of_neg _ (by simp [hpa])]
      exact ih d h hd

/-- Queue document for the concrete claim-creation scenarios: name "q" in
the default project, with queue id (0, 0). -/
def qDocA : QueueDoc := ⟨⟨0, 0⟩, none, "q", "meta"⟩

/-- An unclaimed message in that queue which expires at time 5 — well before
a 60 second claim minted at time 0 would. -/
def msgShortA : Msg := ⟨⟨0, 1⟩, BVal.oid ⟨0, 0⟩, 5, 5, none, ⟨none, 0, none⟩, "b"⟩

/-- Store with one queue and one soon-to-expire unclaimed message. -/
def storeA : Store := ⟨[qDocA], [msgShortA]⟩

/-- C1: the claimed-message-outlives-claim invariant FAILS on the code.
The second multi-document update in `ClaimController.create` filters on
`{"q": queue}` where `queue` is the queue *name* string argument, while
message documents hold the queue ObjectId in `q` (compare
`ClaimController.update`, which filters the same update on `qid`).  A BSON
string never matches an ObjectId, so the expiration extension touches
nothing: claiming the message of `storeA` (which expires at 5) with a
60 second claim at time 0 succeeds and leaves `m.e = 5 < 60 = c.e` with the
claim live. -/
theorem claim_create_breaks_message_outlives_claim :
    ∃ r, ClaimController.create storeA 0 0 "q" (some 60) none 10 7
          = Except.ok r ∧
      ∃ m, m ∈ r.2.2.messages ∧ m.c.id = some (⟨0, 7⟩ : OID) ∧
        (0 : Int) < m.c.e ∧ m.e < m.c.e := by
  refine ⟨(OID.str ⟨0, 7⟩, [⟨OID.str ⟨0, 1⟩, 0, 5, "b"⟩],
      (⟨[qDocA], [⟨⟨0, 1⟩, BVal.oid ⟨0, 0⟩, 5, 5, none,
        ⟨some ⟨0, 7⟩, 60, some 60⟩, "b"⟩]⟩ : Store)), by decide, ?_⟩
  exact ⟨⟨⟨0, 1⟩, BVal.oid ⟨0, 0⟩, 5, 5, none, ⟨some ⟨0, 7⟩, 60, some 60⟩, "b"⟩,
    by decide, by decide, by decide, by decide⟩

/-- C2 counterexample: with one active message in the queue, `create` called
with `limit = 0` is NOT a no-op: a pymongo cursor `limit(0)` means "no
limit", so the single active message is selected, claimed and returned —
the cursor is non-empty and the store is written. -/
theorem claim_create_limit_zero_writes :
    ∃ r, ClaimController.create storeA 0 0 "q" (some 60) none 0 7
          = Except.ok r ∧ r.2.1 ≠ [] ∧ r.2.2 ≠ storeA := by
  refine ⟨(OID.str ⟨0, 7⟩, [⟨OID.str ⟨0, 1⟩, 0, 5, "b"⟩],
      (⟨[qDocA], [⟨⟨0, 1⟩, BVal.oid ⟨0, 0⟩, 5, 5, none,
        ⟨some ⟨0, 7⟩, 60, some 60⟩, "b"⟩]⟩ : Store)),
    by decide, by decide, by decide⟩

/-- C2 (amended): `create` with `limit = 0` imposes no bound at all on the
candidate query; it returns an empty cursor and performs no writes exactly
in the case where the queue has no active messages. -/
theorem claim_create_limit_zero_no_candidates
    (s : Store) (nowA nowU : Int) (queue : String) (ttlMeta : Option Int)
    (project : Option String) (oidSeq : Nat) (qid : OID)
    (hq : QueueController.get_id s queue project = Except.ok qid)
    (hempty : s.messages.filter (activeMatch nowA qid none false none) = []) :
    ClaimController.create s nowA nowU queue ttlMeta project 0 oidSeq
      = Except.ok (OID.str ⟨nowA, oidSeq⟩, [], s) := by
  unfold ClaimController.create
  rw [hq]
  simp [MessageController.active, RawId.truthy, hempty, sortMsgs, sortByB,
    cursorLimit]

/-- Witness for the amended C2 theorem: a queue with no messages at all. -/
theorem claim_create_limit_zero_no_candidates_witness :
    ClaimController.create (⟨[qDocA], []⟩ : Store) 0 0 "q" (some 60) none 0 7
      = Except.ok (OID.str ⟨0, 7⟩, [], (⟨[qDocA], []⟩ : Store)) :=
  claim_create_limit_zero_no_candidates _ 0 0 "q" (some 60) none 7 ⟨0, 0⟩
    rfl rfl

theorem find?_queueKey_eq_none (s : Store) (project : Option String)
    (name : String)
    (habs : ∀ q ∈ s.queues, ¬ (q.p = project ∧ q.n = name)) :
    s.queues.find? (queueKeyMatch project name) = none := by
  rw [List.find?_eq_none]
  intro q hq
  have := habs q hq
  simp only [queueKeyMatch, Bool.and_eq_true, decide_eq_true_eq]
  tauto

/-- C3 (spec-modelled): listing the messages of a queue that does not exist
completes with an empty result — the generator returns before its first
yield — and surfaces no error: the `QueueDoesNotExist` raised by the queue
lookup lands in the generator's `except ValueError` handler (the exception
hierarchy is modelled from the spec in `catchesValueError`). -/
theorem message_list_missing_queue
    (s : Store) (now : Int) (queue : String) (project : Option String)
    (marker : RawId) (limit : Nat) (echo : Bool) (cu : Option String)
    (habs : ∀ q ∈ s.queues, ¬ (q.p = project ∧ q.n = queue)) :
    MessageController.list s now queue project marker limit echo cu
      = ListResult.empty := by
  unfold MessageController.list QueueController.get_id
  rw [find?_queueKey_eq_none s project queue habs]
  rfl

/-- Witness for C3: listing messages of queue "q" over an empty store. -/
theorem message_list_missing_queue_witness :
    MessageController.list (⟨[], []⟩ : Store) 0 "q" none RawId.empty 10 false
      none = ListResult.empty :=
  message_list_missing_queue _ 0 "q" none RawId.empty 10 false none
    (by intro q hq; cases hq)

/-- C4 counterexample: `get` on a message of a queue that does not exist
fails with QueueDoesNotExist, not the MessageDoesNotExist the claim states:
the queue lookup happens while building the query, outside the
`except ValueError` handler that wraps only the message-id parsing, so the
queue error propagates as-is. -/
theorem message_get_missing_queue_raises_queue_error :
    MessageController.get (⟨[], []⟩ : Store) 0 "q" (RawId.valid ⟨0, 0⟩) none
        = Except.error Exc.queueDoesNotExist ∧
      Exc.queueDoesNotExist ≠ Exc.messageDoesNotExist :=
  ⟨rfl, by decide⟩

/-- C4 (amended): for a well-formed message id, `get` on a queue that does
not exist fails with QueueDoesNotExist (a malformed id fails with
MessageDoesNotExist before the queue is ever consulted). -/
theorem message_get_missing_queue
    (s : Store) (now : Int) (queue : String) (mid : OID)
    (project : Option String)
    (habs : ∀ q ∈ s.queues, ¬ (q.p = project ∧ q.n = queue)) :
    MessageController.get s now queue (RawId.valid mid) project
      = Except.error Exc.queueDoesNotExist := by
  unfold MessageController.get QueueController.get_id
  rw [find?_queueKey_eq_none s project queue habs]
  rfl

/-- Witness for the amended C4 theorem. -/
theorem message_get_missing_queue_witness :
    MessageController.get (⟨[], []⟩ : Store) 3 "other" (RawId.valid ⟨1, 2⟩)
      (some "p") = Except.error Exc.queueDoesNotExist :=
  message_get_missing_queue _ 3 "other" ⟨1, 2⟩ (some "p")
    (by intro q hq; cases hq)

/-- An expired message (`e = 0 ≤ now`) carrying a stale claim record. -/
def msgExpiredC : Msg :=
  ⟨⟨0, 1⟩, BVal.oid ⟨0, 0⟩, 5, 0, none, ⟨some ⟨0, 9⟩, 10, some 10⟩, "b"⟩

/-- Store with one queue and one expired message. -/
def storeC : Store := ⟨[qDocA], [msgExpiredC]⟩

/-- C5 counterexample: deleting an EXPIRED message with a claim argument
supplied does NOT fail ClaimNotPermitted, contrary to the claim: the
guarded `find_one` adds `e > now` to the query, finds nothing, and the
method silently returns with the store unchanged. -/
theorem message_delete_expired_with_claim_silent :
    MessageController.delete storeC 0 "q" (RawId.valid ⟨0, 1⟩) none
        (RawId.valid ⟨0, 9⟩) = Except.ok storeC ∧
      msgExpiredC.e ≤ 0 ∧ msgExpiredC ∈ storeC.messages :=
  ⟨rfl, by decide, by decide⟩

/-- C5 (amended): with a well-formed claim argument, `delete` removes the
message exactly when the target exists in the queue, is unexpired, and
carries a live claim whose id equals the argument; if the guarded lookup
finds no unexpired document (missing or expired message) the call silently
no-ops; only when the document is found but its claim is dead, absent or
mismatched does it fail ClaimNotPermitted. -/
theorem message_delete_with_claim_cases
    (s : Store) (now : Int) (queue : String) (project : Option String)
    (qid mid cid : OID)
    (hq : QueueController.get_id s queue project = Except.ok qid) :
    (s.messages.find? (getMatch now qid mid) = none →
      MessageController.delete s now queue (RawId.valid mid) project
          (RawId.valid cid) = Except.ok s) ∧
    (∀ msg, s.messages.find? (getMatch now qid mid) = some msg →
      ((msg.c.id = some cid ∧ now < msg.c.e) →
        MessageController.delete s now queue (RawId.valid mid) project
            (RawId.valid cid)
          = Except.ok { s with messages :=
              (s.messages.filter (fun m => decide (m.mid ≠ mid))) }) ∧
      (¬ (msg.c.id = some cid ∧ now < msg.c.e) →
        MessageController.delete s now queue (RawId.valid mid) project
            (RawId.valid cid) = Except.error Exc.claimNotPermitted)) := by
  constructor
  · intro hnone
    unfold MessageController.delete
    rw [hq]
    simp only [toOid, RawId.truthy, if_true]
    rw [hnone]
  · intro msg hsome
    constructor
    · intro hlive
      unfold MessageController.delete
      rw [hq]
      simp only [toOid, RawId.truthy, if_true]
      rw [hsome]
      simp [hlive.1, hlive.2]
    · intro hdead
      unfold MessageController.delete
      rw [hq]
      simp only [toOid, RawId.truthy, if_true]
      rw [hsome]
      have : (decide (msg.c.id = some cid) && decide (now < msg.c.e)) = false := by
        rw [Bool.and_eq_false_iff]
        by_cases h1 : msg.c.id = some cid
        · right
          rw [decide_eq_false]
          intro h2
          exact hdead ⟨h1, h2⟩
        · left
          exact decide_eq_false h1
      simp [this]

/-- A live message carrying a live claim with id (0, 9). -/
def msgLiveD : Msg :=
  ⟨⟨0, 1⟩, BVal.oid ⟨0, 0⟩, 100, 100, none, ⟨some ⟨0, 9⟩, 50, some 50⟩, "b"⟩

/-- Store with one queue and one live claimed message. -/
def storeD : Store := ⟨[qDocA], [msgLiveD]⟩

/-- Witness for the amended C5 theorem: deleting a live message under its
own live claim removes it. -/
theorem message_delete_with_claim_cases_witness :
    MessageController.delete storeD 0 "q" (RawId.valid ⟨0, 1⟩) none
        (RawId.valid ⟨0, 9⟩)
      = Except.ok { storeD with messages :=
          (storeD.messages.filter (fun m => decide (m.mid ≠ (⟨0, 1⟩ : OID)))) } :=
  ((message_delete_with_claim_cases storeD 0 "q" none ⟨0, 0⟩ ⟨0, 1⟩ ⟨0, 9⟩
      rfl).2 msgLiveD rfl).1 ⟨rfl, by decide⟩

theorem get_id_error (s : Store) (name : String) (project : Option String)
    (e : Exc) (h : QueueController.get_id s name project = Except.error e) :
    e = Exc.queueDoesNotExist := by
  unfold QueueController.get_id at h
  cases hf : s.queues.find? (queueKeyMatch project name) with
  | none =>
    rw [hf] at h
    exact (Except.error.inj h).symm
  | some q =>
    rw [hf] at h
    exact Except.noConfusion h

/-- C6 counterexample: renewing a claim with `metadata.ttl = 0` computes
`expires = now`, which is not strictly in the future, yet NO value error is
raised — the guard tests `now > expires`, false at equality — and the
embedded claim is rewritten with `c.e = now`, i.e. born expired. -/
theorem claim_update_ttl_zero_not_rejected :
    ClaimController.update storeD 0 "q" (RawId.valid ⟨0, 9⟩) (some 0) none
        ≠ Except.error Exc.valueError ∧
      ClaimController.update storeD 0 "q" (RawId.valid ⟨0, 9⟩) (some 0) none
        = Except.ok (⟨[qDocA], [⟨⟨0, 1⟩, BVal.oid ⟨0, 0⟩, 100, 100, none,
            ⟨some ⟨0, 9⟩, 0, some 0⟩, "b"⟩]⟩ : Store) :=
  ⟨by decide, rfl⟩

/-- C6 (amended): `update` computes `expires = now + metadata.ttl` but
raises the value error only when the computed expiration is strictly
EARLIER than `now` — that is, exactly for a well-formed claim id and a
negative ttl.  `ttl = 0` (expiration equal to `now`) passes the guard. -/
theorem claim_update_value_error_characterization
    (s : Store) (now : Int) (queue : String) (claim_id : RawId)
    (ttlMeta : Option Int) (project : Option String) :
    ClaimController.update s now queue claim_id ttlMeta project
        = Except.error Exc.valueError
      ↔ ((∃ c, claim_id = RawId.valid c) ∧ ttlMeta.getD 60 < 0) := by
  cases claim_id with
  | empty =>
    simp only [ClaimController.update, toOid]
    constructor
    · intro h
      exact absurd (Except.error.inj h) (by decide)
    · intro h
      obtain ⟨c, hc⟩ := h.1
      cases hc
  | malformed =>
    simp only [ClaimController.update, toOid]
    constructor
    · intro h
      exact absurd (Except.error.inj h) (by decide)
    · intro h
      obtain ⟨c, hc⟩ := h.1
      cases hc
  | valid c =>
    by_cases hneg : ttlMeta.getD 60 < 0
    · have hdec : now > now + ttlMeta.getD 60 := by omega
      unfold ClaimController.update
      simp only [toOid, decide_eq_true hdec, if_true]
      simp [hneg]
    · have hdec : ¬ (now > now + ttlMeta.getD 60) := by omega
      constructor
      · intro h
        exfalso
        unfold ClaimController.update at h
        simp only [toOid, decide_eq_false hdec, Bool.false_eq_true,
          if_false] at h
        split at h
        · rename_i e heq
          have := get_id_error s queue project e heq
          subst this
          exact absurd (Except.error.inj h) (by decide)
        · split at h
          · exact absurd (Except.error.inj h) (by decide)
          · exact Except.noConfusion h
      · intro h
        exact absurd h.2 hneg

/-- Witness for the amended C6 theorem: a negative ttl is rejected with the
value error. -/
theorem claim_update_value_error_characterization_witness :
    ClaimController.update storeD 0 "q" (RawId.valid ⟨0, 9⟩) (some (-5)) none
      = Except.error Exc.valueError :=
  (claim_update_value_error_characterization storeD 0 "q"
    (RawId.valid ⟨0, 9⟩) (some (-5)) none).mpr ⟨⟨⟨0, 9⟩, rfl⟩, by decide⟩

theorem claimApply_of_live (ids : List OID) (nowU : Int) (meta : EmbClaim)
    (m : Msg) (hid : m.c.id ≠ none) (he : nowU < m.c.e) :
    claimApply ids nowU meta m = m := by
  unfold claimApply claimPred
  have h1 : decide (m.c.id = none) = false := decide_eq_false hid
  have h2 : decide (m.c.e ≤ nowU) = false := decide_eq_false (not_le.mpr he)
  simp [h1, h2]

theorem extendApply_mid_c (queue : String) (expires ttl : Int) (oid : OID)
    (m : Msg) :
    (extendApply queue expires ttl oid m).mid = m.mid ∧
      (extendApply queue expires ttl oid m).c = m.c := by
  unfold extendApply
  split <;> exact ⟨rfl, rfl⟩

/-- C7: `create` never overclaims.  Whenever a `create` call succeeds, every
message that carried a live claim at the instant of the conditional update
keeps that claim record untouched in the post-state (the predicate
`c.id = null ∨ c.e ≤ now` rejects it, and the second update never writes
`c`); consequently, for distinct claim ids the sets of messages carrying
each id with a live claim expiration are disjoint in the post-state. -/
theorem claim_create_no_overclaim
    (s : Store) (nowA nowU : Int) (queue : String) (ttlMeta : Option Int)
    (project : Option String) (limit : Nat) (oidSeq : Nat)
    (cs : String) (vs : List MsgView) (s2 : Store)
    (h : ClaimController.create s nowA nowU queue ttlMeta project limit oidSeq
          = Except.ok (cs, vs, s2)) :
    (∀ m ∈ s.messages, m.c.id ≠ none → nowU < m.c.e →
       ∃ m2, m2 ∈ s2.messages ∧ m2.mid = m.mid ∧ m2.c = m.c) ∧
    (∀ c1 c2 : OID, c1 ≠ c2 → ∀ m ∈ s2.messages,
       m.c.id = some c1 ∧ nowU < m.c.e → ¬ (m.c.id = some c2 ∧ nowU < m.c.e)) := by
  have hdisj : ∀ c1 c2 : OID, c1 ≠ c2 → ∀ m ∈ s2.messages,
      m.c.id = some c1 ∧ nowU < m.c.e →
        ¬ (m.c.id = some c2 ∧ nowU < m.c.e) := by
    intro c1 c2 hne m _ h1 h2
    rw [h1.1] at h2
    exact hne (Option.some.inj h2.1)
  refine ⟨?_, hdisj⟩
  intro m hm hid he
  unfold ClaimController.create at h
  cases hg : QueueController.get_id s queue project with
  | error e =>
    rw [hg] at h
    exact Except.noConfusion h
  | ok qid =>
    rw [hg] at h
    simp only [MessageController.active, RawId.truthy, Bool.false_eq_true,
      if_false] at h
    split at h
    · have htup := Except.ok.inj h
      injection htup with hA hBC
      injection hBC with hB hC
      rw [← hC]
      exact ⟨m, hm, rfl, rfl⟩
    · split at h
      · split at h
        · exact Except.noConfusion h
        · rename_i views hget
          have htup := Except.ok.inj h
          injection htup with hA hBC
          injection hBC with hB hC
          rw [← hC]
          refine ⟨_, List.mem_map_of_mem _ (List.mem_map_of_mem _ hm), ?_, ?_⟩
          · rw [claimApply_of_live _ _ _ m hid he]
            exact (extendApply_mid_c _ _ _ _ m).1
          · rw [claimApply_of_live _ _ _ m hid he]
            exact (extendApply_mid_c _ _ _ _ m).2
      · have htup := Except.ok.inj h
        injection htup with hA hBC
        injection hBC with hB hC
        rw [← hC]
        refine ⟨_, List.mem_map_of_mem _ (List.mem_map_of_mem _ hm), ?_, ?_⟩
        · rw [claimApply_of_live _ _ _ m hid he]
          exact (extendApply_mid_c _ _ _ _ m).1
        · rw [claimApply_of_live _ _ _ m hid he]
          exact (extendApply_mid_c _ _ _ _ m).2

/-- A message held by a live claim (id (0, 9)) at times 0: not an active
candidate. -/
def msgLiveE : Msg :=
  ⟨⟨0, 2⟩, BVal.oid ⟨0, 0⟩, 100, 200, none, ⟨some ⟨0, 9⟩, 100, some 100⟩, "x"⟩

/-- An unclaimed active message in the same queue. -/
def msgFreeE : Msg :=
  ⟨⟨0, 3⟩, BVal.oid ⟨0, 0⟩, 50, 50, none, ⟨none, 0, none⟩, "y"⟩

/-- Store with one live-claimed and one free message. -/
def storeE : Store := ⟨[qDocA], [msgLiveE, msgFreeE]⟩

/-- Post-state of a successful `create` over `storeE`: the free message is
claimed by the new claim (0, 7); the live-claimed message is untouched. -/
def storeE2 : Store :=
  ⟨[qDocA], [msgLiveE,
    ⟨⟨0, 3⟩, BVal.oid ⟨0, 0⟩, 50, 50, none, ⟨some ⟨0, 7⟩, 60, some 60⟩, "y"⟩]⟩

/-- Witness for C7: a successful `create` that claims the free message of
`storeE` while the competing live claim (0, 9) survives untouched. -/
theorem claim_create_no_overclaim_witness :
    (∀ m ∈ storeE.messages, m.c.id ≠ none → (0 : Int) < m.c.e →
       ∃ m2, m2 ∈ storeE2.messages ∧ m2.mid = m.mid ∧ m2.c = m.c) ∧
    (∀ c1 c2 : OID, c1 ≠ c2 → ∀ m ∈ storeE2.messages,
       m.c.id = some c1 ∧ (0 : Int) < m.c.e →
         ¬ (m.c.id = some c2 ∧ (0 : Int) < m.c.e)) :=
  claim_create_no_overclaim storeE 0 0 "q" (some 60) none 10 7
    (OID.str ⟨0, 7⟩) [⟨OID.str ⟨0, 3⟩, 0, 50, "y"⟩] storeE2 (by decide)

/-- An active message with id (0, 2), stored first in the collection. -/
def msgOrdB2 : Msg := ⟨⟨0, 2⟩, BVal.oid ⟨0, 0⟩, 9, 50, none, ⟨none, 0, none⟩, "b2"⟩

/-- An active message with id (0, 1), stored second in the collection. -/
def msgOrdB1 : Msg := ⟨⟨0, 1⟩, BVal.oid ⟨0, 0⟩, 9, 50, none, ⟨none, 0, none⟩, "b1"⟩

/-- Store whose messages sit in the collection in descending id order. -/
def storeB : Store := ⟨[qDocA], [msgOrdB2, msgOrdB1]⟩

/-- C8 counterexample: `active` applies no sort — its `find` returns
matching messages in collection (natural) order, here (0, 2) before (0, 1),
which is not ascending id order. -/
theorem message_active_not_sorted :
    MessageController.active storeB 0 ⟨0, 0⟩ RawId.empty false none
        = Except.ok [msgOrdB2, msgOrdB1] ∧
      chainB msgLe [msgOrdB2, msgOrdB1] = false :=
  ⟨rfl, by decide⟩

/-- C8 (amended): `active` itself applies no sort and yields matching
messages in collection order; the consumers that expose them — message
`list` and claim `create` — add the `sort("_id")` cursor option, so the
cursor drained by `list` is ascending in id order for every store state. -/
theorem message_list_drains_sorted
    (s : Store) (now : Int) (queue : String) (project : Option String)
    (marker : RawId) (limit : Nat) (echo : Bool) (cu : Option String)
    (views : List MsgView) (mk : MarkerOut)
    (h : MessageController.list s now queue project marker limit echo cu
          = ListResult.items views mk) :
    ∃ msgs, views = msgs.map (msgDenorm now) ∧ chainB msgLe msgs = true := by
  unfold MessageController.list at h
  split at h
  · split at h
    · exact ListResult.noConfusion h
    · exact ListResult.noConfusion h
  · rename_i msgs0 hok
    injection h with h1 h2
    exact ⟨listSortedMsgs msgs0 limit, h1.symm,
      chainB_listSortedMsgs msgs0 limit⟩

/-- Witness for the amended C8 theorem: draining `list` over `storeB` yields
the two messages in ascending id order even though the collection holds
them reversed. -/
theorem message_list_drains_sorted_witness :
    ∃ msgs, [(⟨OID.str ⟨0, 1⟩, 0, 9, "b1"⟩ : MsgView),
        ⟨OID.str ⟨0, 2⟩, 0, 9, "b2"⟩] = msgs.map (msgDenorm 0) ∧
      chainB msgLe msgs = true :=
  message_list_drains_sorted storeB 0 "q" none RawId.empty 10 false none
    _ (MarkerOut.next (OID.str ⟨0, 2⟩)) (by decide)

/-- C9: `upsert` is idempotent: a second identical `upsert` leaves the store
exactly as after the first and reports `false` (no queue created), while the
first call on an absent queue reports `true`. -/
theorem queue_upsert_idempotent
    (s : Store) (name meta : String) (project : Option String)
    (id1 id2 : OID) :
    ((QueueController.upsert
        (QueueController.upsert s name meta project id1).2
        name meta project id2).2
      = (QueueController.upsert s name meta project id1).2) ∧
    ((QueueController.upsert
        (QueueController.upsert s name meta project id1).2
        name meta project id2).1 = false) ∧
    ((∀ q ∈ s.queues, ¬ (q.p = project ∧ q.n = name)) →
      (QueueController.upsert s name meta project id1).1 = true) := by
  have hp : ∀ q : QueueDoc,
      queueKeyMatch project name { q with m := meta }
        = queueKeyMatch project name q := fun q => rfl
  cases hf : s.queues.find? (queueKeyMatch project name) with
  | some x =>
    have hff := find?_updateFirst (queueKeyMatch project name)
      (fun q => { q with m := meta }) hp s.queues x hf
    have hid := updateFirst_twice (queueKeyMatch project name)
      (fun q => { q with m := meta }) hp (fun a _ => rfl) s.queues
    refine ⟨?_, ?_, ?_⟩
    · simp only [QueueController.upsert, hf, hff, hid]
    · simp only [QueueController.upsert, hf, hff]
    · intro habs
      exfalso
      have hmem := List.mem_of_find?_eq_some hf
      have hx := List.find?_some hf
      simp only [queueKeyMatch, Bool.and_eq_true, decide_eq_true_eq] at hx
      exact habs x hmem hx
  | none =>
    have hd : queueKeyMatch project name (⟨id1, project, name, meta⟩ : QueueDoc)
        = true := by
      simp [queueKeyMatch]
    have hfind2 := find?_append_of_none (queueKeyMatch project name) s.queues
      (⟨id1, project, name, meta⟩ : QueueDoc) hf hd
    have hupd : updateFirst (queueKeyMatch project name)
        (fun q => { q with m := meta })
        (s.queues ++ [⟨id1, project, name, meta⟩])
        = s.queues ++ [⟨id1, project, name, meta⟩] := by
      rw [updateFirst_append_of_none (queueKeyMatch project name)
        (fun q => { q with m := meta }) s.queues _ hf]
      simp [hd]
    refine ⟨?_, ?_, ?_⟩
    · simp only [QueueController.upsert, hf, hfind2, hupd]
    · simp only [QueueController.upsert, hf, hfind2]
    · intro _
      simp only [QueueController.upsert, hf]

/-- Witness for C9: the first `upsert` of queue "q" into an empty store
reports that a queue was created. -/
theorem queue_upsert_idempotent_witness :
    (QueueController.upsert (⟨[], []⟩ : Store) "q" "meta" none ⟨0, 1⟩).1
      = true :=
  (queue_upsert_idempotent ⟨[], []⟩ "q" "meta" none ⟨0, 1⟩ ⟨0, 2⟩).2.2
    (by intro q hq; cases hq)

/-- C10: when queue `list` or message `list` enumerates zero items, draining
the cursor and then requesting the next marker hits an unassigned
`marker_name["next"]` / `marker_id["next"]` slot — an uncaught KeyError —
because the slot is written only while items are yielded; no empty-result
marker is defined at the public interface. -/
theorem empty_enumeration_marker_key_error
    (s : Store) (project : Option String) (qmarker : Option String)
    (qlimit : Nat) (detailed : Bool)
    (now : Int) (queue : String) (mproject : Option String) (mmarker : RawId)
    (mlimit : Nat) (echo : Bool) (cu : Option String)
    (views : List MsgView) (mk : MarkerOut)
    (hq : (QueueController.list s project qmarker qlimit detailed).1 = [])
    (hm : MessageController.list s now queue mproject mmarker mlimit echo cu
           = ListResult.items views mk)
    (hv : views = []) :
    (QueueController.list s project qmarker qlimit detailed).2
        = MarkerOut.keyError ∧ mk = MarkerOut.keyError := by
  constructor
  · unfold QueueController.list at hq ⊢
    simp only at hq ⊢
    have hc := List.map_eq_nil_iff.mp hq
    rw [hc]
    rfl
  · unfold MessageController.list at hm
    split at hm
    · split at hm
      · exact ListResult.noConfusion hm
      · exact ListResult.noConfusion hm
    · rename_i msgs0 hok
      injection hm with h1 h2
      subst hv
      have hd := List.map_eq_nil_iff.mp h1
      rw [← h2, hd]
      rfl

/-- A queue that lives in project "p1" (so that a default-project queue
listing matches nothing while the queue itself still exists). -/
def qDocF : QueueDoc := ⟨⟨0, 0⟩, some "p1", "q", "meta"⟩

/-- Witness for C10: an empty queue listing and an empty message listing
both leave the marker slot unassigned. -/
theorem empty_enumeration_marker_key_error_witness :
    (QueueController.list (⟨[qDocF], []⟩ : Store) none none 10 false).2
        = MarkerOut.keyError ∧ MarkerOut.keyError = MarkerOut.keyError :=
  empty_enumeration_marker_key_error ⟨[qDocF], []⟩ none none 10 false
    0 "q" (some "p1") RawId.empty 10 false none [] MarkerOut.keyError
    (by decide) (by decide) rfl
